import Mathlib

/-!
Verification of the broadcasting/traversal core of the xtensor-style array
library (src/include/xarray/broadcast.hpp and xexpression.hpp).

Shallow embedding conventions:
- shape extents are Nat, stride values and buffer offsets are Int
  (iterator positions can move below their starting point);
- the in-place mutation of the output accumulator in broadcast_shape is
  modelled by returning the final list;
- the C++ exception thrown on an incompatible dimension pair is modelled
  by the BResult.err constructor, carrying the accumulator as mutated at
  the moment of the throw;
- when the input shape has more dimensions than the output accumulator
  the C++ loop advances the output reverse iterator past rend()
  (undefined behavior: the loop bound is the input length only); that
  out-of-domain case is modelled by the distinguished BResult.overrun.
-/

/-- Result of a broadcast_shape call: success with the updated output
shape and the trivial-broadcast flag, failure (C++ throw) with the
partially updated output shape, or an out-of-bounds accumulator read. -/
inductive BResult where
  | ok (output : List Nat) (triv : Bool)
  | err (output : List Nat)
  | overrun
deriving DecidableEq

def BResult.isErr : BResult → Bool
  | .err _ => true
  | _ => false

def BResult.isOk : BResult → Bool
  | .ok _ _ => true
  | _ => false

def BResult.outList : BResult → List Nat
  | .ok r _ => r
  | .err r => r
  | .overrun => []

/-- One loop iteration of broadcast_shape wrote value v into the output
slot and ANDed the per-dimension equality check chk into the running
trivial flag; prepend that onto the result of the remaining iterations. -/
def consEntry (v : Nat) (chk : Bool) : BResult → BResult
  | .ok r t => .ok (v :: r) (chk && t)
  | .err r => .err (v :: r)
  | .overrun => .overrun

/-- The loop of broadcast_shape, on the reversed (innermost-first) input
and output shapes, exactly as in the source: iterate over the input
dimensions; if the output dimension is 1 overwrite it with the input
dimension, else throw if the input dimension is neither 1 nor equal to
the output dimension; the per-dimension trivial check compares the
(possibly just overwritten) output dimension with the input dimension. -/
def bsAux : List Nat → List Nat → BResult
  | [], routs => .ok routs true
  | _ :: _, [] => .overrun
  | i :: ins, o :: outs =>
    if o = 1 then consEntry i true (bsAux ins outs)
    else if i ≠ 1 ∧ o ≠ i then .err (o :: outs)
    else consEntry o (o == i) (bsAux ins outs)

/-- broadcast_shape (broadcast.hpp lines 121-141): folds the input shape
into the output accumulator right-aligned, returning the final
accumulator and the trivial flag, which starts as the rank-equality test
made before the loop. -/
def broadcast_shape (input output : List Nat) : BResult :=
  match bsAux input.reverse output.reverse with
  | .ok r t => .ok r.reverse ((input.length == output.length) && t)
  | .err r => .err r.reverse
  | .overrun => .overrun

/-- The i-th trailing (innermost-first) dimension of a shape; a shape
that is too short contributes the broadcasting identity extent 1. -/
def trailingDim (s : List Nat) (i : Nat) : Nat := s.reverse.getD i 1

/-- broadcasting_iterator (broadcast.hpp lines 38-67): the embedded
buffer position, the per-dimension strides and the derived backstrides. -/
structure broadcasting_iterator where
  m_iter : Int
  m_strides : List Int
  m_backstrides : List Int

/-- The constructor (broadcast.hpp lines 155-163): the init list moves the
strides argument into m_strides and value-initializes m_backstrides with
shape.size() zeros; the transform in the body then iterates the
moved-from (hence empty) strides vector and writes nothing, so the
backstrides remain all zero. (Its lambda, had it run over the stored
stride values, would compute stride * shape - 1 for a non-zero stride —
itself off by one from the documented stride * (shape - 1).) -/
def broadcasting_iterator.construct (iter : Int) (strides : List Int)
    (shape : List Nat) : broadcasting_iterator :=
  ⟨iter, strides, List.replicate shape.length 0⟩

/-- increment(dim) (lines 171-175): m_iter += m_strides[dim]. -/
def broadcasting_iterator.increment (dim : Nat) (it : broadcasting_iterator) :
    broadcasting_iterator :=
  { it with m_iter := it.m_iter + it.m_strides.getD dim 0 }

/-- reset(dim) (lines 177-181): m_iter -= m_backstrides[dim]. -/
def broadcasting_iterator.reset (dim : Nat) (it : broadcasting_iterator) :
    broadcasting_iterator :=
  { it with m_iter := it.m_iter - it.m_backstrides.getD dim 0 }

/-- Apply a function n times (used to model repeated advance calls). -/
def applyN {α : Type} (f : α → α) : Nat → α → α
  | 0, a => a
  | n + 1, a => f (applyN f n a)

/-- multi_iterator (broadcast.hpp lines 74-106): the owned cursors (the
C++ tuple of heterogeneous iterator types is modelled as a list, every
element receiving the same increment/reset calls), the shared logical
shape and the mutable current index. -/
structure multi_iterator where
  m_iterator : List broadcasting_iterator
  m_shape : List Nat
  m_index : List Nat

/-- The constructor (lines 188-192): stores the cursors and the shape and
initializes the index to shape.size() zeros. -/
def multi_iterator.construct (its : List broadcasting_iterator)
    (shape : List Nat) : multi_iterator :=
  ⟨its, shape, List.replicate shape.length 0⟩

/-- The loop of operator++ (lines 194-211) with the countdown variable j
made explicit: at j+1 the dimension i = j is incremented; on no overflow
every cursor advances along i and the loop stops, otherwise the index
wraps to 0, every cursor resets along i and the loop continues outward.
The boolean records whether the carry propagated past the outermost
dimension (the terminal, one-past-end state of the traversal). -/
def stepAux : multi_iterator → Nat → multi_iterator × Bool
  | m, 0 => (m, true)
  | m, j + 1 =>
    if m.m_index.getD j 0 + 1 ≠ m.m_shape.getD j 0 then
      (⟨m.m_iterator.map (broadcasting_iterator.increment j), m.m_shape,
        m.m_index.set j (m.m_index.getD j 0 + 1)⟩, false)
    else
      stepAux
        ⟨m.m_iterator.map (broadcasting_iterator.reset j), m.m_shape,
         m.m_index.set j 0⟩ j

/-- operator++ : one ripple-carry step starting at the innermost
dimension. -/
def multi_iterator.step (m : multi_iterator) : multi_iterator × Bool :=
  stepAux m m.m_index.length

/-- The current-index invariant of the Multi-Cursor: the index has one
entry per dimension and every entry is below its extent. -/
def multi_iterator.inv (m : multi_iterator) : Prop :=
  m.m_index.length = m.m_shape.length ∧
    ∀ d, d < m.m_shape.length → m.m_index.getD d 0 < m.m_shape.getD d 0

/-- The concrete Multi-Cursor of the 2x3 traversal scenario: one cursor
with strides [3, 1] (a real 2x3 buffer) and one with strides [0, 1]
(a broadcast 1x3 buffer), both over logical shape [2, 3]. -/
def c5Init : multi_iterator :=
  multi_iterator.construct
    [broadcasting_iterator.construct 0 [3, 1] [2, 3],
     broadcasting_iterator.construct 0 [0, 1] [2, 3]]
    [2, 3]

/-- The state of that Multi-Cursor after n step() calls. -/
def c5State : Nat → multi_iterator
  | 0 => c5Init
  | n + 1 => ((c5State n).step).1

/-- The buffer offsets of the two cursors after n step() calls. -/
def c5Offsets (n : Nat) : List Int :=
  (c5State n).m_iterator.map broadcasting_iterator.m_iter

/-- Model of the C++ type graph for the is_xexpression predicate
(xexpression.hpp lines 47-48): a type name is the scalar double, an
instance xexpression D of the class template, or a named class; the
direct bases of class n are given by an environment. -/
inductive TyName where
  | double
  | xexpr (arg : TyName)
  | cls (n : Nat)
deriving DecidableEq

/-- Whether a type name denotes a class type (std::is_base_of is false
whenever either argument is a non-class type such as double). -/
def TyName.isClass : TyName → Bool
  | .double => false
  | .xexpr _ => true
  | .cls _ => true

/-- std::is_base_of<B, D> for the modelled type graph: D is a class equal
to B, or D is a class one of whose direct bases derives from B. The
class template xexpression itself declares no bases and double is not a
class. -/
inductive DerivesFrom (env : Nat → List TyName) : TyName → TyName → Prop where
  | refl (t : TyName) : t.isClass = true → DerivesFrom env t t
  | base (n : Nat) (b c : TyName) :
      b ∈ env n → DerivesFrom env b c → DerivesFrom env (.cls n) c

/-- is_xexpression (xexpression.hpp line 47-48):
std::is_base_of<xexpression<E>, E>. -/
def is_xexpression (env : Nat → List TyName) (e : TyName) : Prop :=
  DerivesFrom env e (.xexpr e)

/-- A CRTP environment in which class 0 directly derives from
xexpression<class 0>. -/
def envCRTP : Nat → List TyName := fun _ => [TyName.xexpr (TyName.cls 0)]

/-- Claim C3 (code_bug evaluation): for a dimension with stride 3 and
extent 2 the constructor stores backstride 0 — the transform iterates
the strides vector after it was moved away, so nothing overwrites the
value-initialized zeros — which is not the specified
stride * (extent - 1) = 3. -/
theorem backstrides_zero_eval :
    (broadcasting_iterator.construct 0 [3] [2]).m_backstrides = [0] ∧
      (0 : Int) ≠ 3 * (2 - 1) := by decide

/-- Claim C5 (counterexample): at the fourth visited position (logical
index (1, 0)) the two cursors' offsets are 5 and 2, not the claimed 3
and 0 — the wrap of the inner dimension subtracted a backstride of 0
instead of 2, and the drift persists. -/
theorem multi_iterator_trace_2x3_cex :
    c5Offsets 3 = [5, 2] ∧ c5Offsets 3 ≠ [3, 0] := by decide

/-- Claim C5 (amended): over logical shape [2, 3], with one cursor of
strides [3, 1] and one of strides [0, 1], the six visited logical
indices are in row-major order and the sixth step() reaches the terminal
state, but because the stored backstrides are all zero (the constructor
reads the strides vector after moving from it) reset is a no-op: the
first cursor's offsets over the six positions are 0,1,2,5,6,7 and the
second cursor's are 0,1,2,2,3,4, not the in-bounds 0,1,2,3,4,5 and
0,1,2,0,1,2 a correct backstride would give. -/
theorem multi_iterator_trace_2x3 :
    ((c5State 0).m_index = [0, 0] ∧ (c5State 1).m_index = [0, 1] ∧
     (c5State 2).m_index = [0, 2] ∧ (c5State 3).m_index = [1, 0] ∧
     (c5State 4).m_index = [1, 1] ∧ (c5State 5).m_index = [1, 2]) ∧
    (c5Offsets 0 = [0, 0] ∧ c5Offsets 1 = [1, 1] ∧ c5Offsets 2 = [2, 2] ∧
     c5Offsets 3 = [5, 2] ∧ c5Offsets 4 = [6, 3] ∧ c5Offsets 5 = [7, 4]) ∧
    (((c5State 0).step).2 = false ∧ ((c5State 1).step).2 = false ∧
     ((c5State 2).step).2 = false ∧ ((c5State 3).step).2 = false ∧
     ((c5State 4).step).2 = false ∧ ((c5State 5).step).2 = true) := by decide

/-- Claim C1 (counterexample): calling broadcast_shape with input [2, 3]
and output [3] has no right-aligned pair with both dimensions different
from 1 and from each other, yet the call neither raises the incompatible
shape error nor succeeds: the loop runs past the end of the output
accumulator. -/
theorem broadcast_shape_overrun_cex :
    (broadcast_shape [2, 3] [3]).isErr = false ∧
      (broadcast_shape [2, 3] [3]).isOk = false := by decide

/-- Claim C2 (counterexample): broadcast_shape [5] [1] succeeds and
returns the trivial flag true although the single aligned pair (5, 1)
was not equal before the call (the output dimension was widened). -/
theorem broadcast_shape_trivial_widening_cex :
    broadcast_shape [5] [1] = BResult.ok [5] true ∧ (5 : Nat) ≠ 1 := by decide

/-- Claim C4 (counterexample): [3] and [2, 3] are broadcast-compatible,
but folding B = [2, 3] into an accumulator starting at A = [3] reads
past the end of the accumulator instead of producing a result of rank
max(1, 2) = 2. -/
theorem broadcast_fold_rank_cex :
    broadcast_shape [2, 3] [3] = BResult.overrun ∧
      BResult.overrun.outList.length ≠
        max (List.length [3]) (List.length [2, 3]) := by decide

/-- Claim C6 (counterexample): for a 1-D logical shape of extent 2 and
stride 3, two advance(0) calls followed by one reset(0) leave the
position at 6, not at the starting value 0: the stored backstride is 0,
so reset subtracts nothing. -/
theorem advance_reset_roundtrip_cex :
    (broadcasting_iterator.reset 0
        (applyN (broadcasting_iterator.increment 0) 2
          (broadcasting_iterator.construct 0 [3] [2]))).m_iter = 6 ∧
      (6 : Int) ≠ 0 := by decide

/-- Advancing n times along dimension d adds n times the stride of d to
the position and changes nothing else. -/
theorem applyN_increment (d : Nat) (b : broadcasting_iterator) (n : Nat) :
    applyN (broadcasting_iterator.increment d) n b =
      ⟨b.m_iter + (n : Int) * b.m_strides.getD d 0, b.m_strides, b.m_backstrides⟩ := by
  induction n with
  | zero => simp [applyN]
  | succ n ih =>
    simp only [applyN, ih, broadcasting_iterator.increment]
    congr 1
    push_cast
    ring

/-- Claim C6 (amended): for a 1-D logical shape of extent n and non-zero
stride k, n advance(0) calls followed by one reset(0) leave the
underlying position at start + n * k, not at its starting value: the
constructor leaves the stored backstride at 0 (the transform runs over
the moved-from strides vector), so reset subtracts nothing. -/
theorem advance_reset_no_op (p k : Int) (n : Nat) (hk : k ≠ 0) :
    (broadcasting_iterator.reset 0
        (applyN (broadcasting_iterator.increment 0) n
          (broadcasting_iterator.construct p [k] [n]))).m_iter =
      p + (n : Int) * k := by
  rw [applyN_increment]
  simp [broadcasting_iterator.reset, broadcasting_iterator.construct,
    List.getD_cons_zero]

/-- Witness for the amended claim C6 at p = 0, k = 3, n = 2. -/
theorem advance_reset_no_op_witness :
    (broadcasting_iterator.reset 0
        (applyN (broadcasting_iterator.increment 0) 2
          (broadcasting_iterator.construct 0 [3] [2]))).m_iter =
      0 + ((2 : Nat) : Int) * 3 :=
  advance_reset_no_op 0 3 2 (by decide)

/-- Claim C10: is_xexpression is true for a class that attaches to the
expression base (derives from xexpression of itself) and false for the
unrelated scalar type double. -/
theorem is_xexpression_spec :
    (∀ (env : Nat → List TyName) (n : Nat),
        TyName.xexpr (TyName.cls n) ∈ env n → is_xexpression env (TyName.cls n)) ∧
      ∀ env : Nat → List TyName, ¬ is_xexpression env TyName.double := by
  constructor
  · intro env n hmem
    exact DerivesFrom.base n _ _ hmem (DerivesFrom.refl _ rfl)
  · intro env h
    cases h

/-- Witness for claim C10: in the environment where class 0 directly
derives from xexpression of class 0, the predicate holds of class 0. -/
theorem is_xexpression_spec_witness : is_xexpression envCRTP (TyName.cls 0) :=
  is_xexpression_spec.1 envCRTP 0 (by decide)

/-- Inversion of consEntry on a success result. -/
theorem consEntry_ok {v : Nat} {chk : Bool} {b : BResult} {r : List Nat} {t : Bool}
    (h : consEntry v chk b = .ok r t) :
    ∃ r0 t0, b = .ok r0 t0 ∧ r = v :: r0 ∧ t = (chk && t0) := by
  cases b with
  | ok r0 t0 =>
    simp only [consEntry, BResult.ok.injEq] at h
    exact ⟨r0, t0, rfl, h.1.symm, h.2.symm⟩
  | err r0 => simp [consEntry] at h
  | overrun => simp [consEntry] at h

/-- Inversion of consEntry on an error result. -/
theorem consEntry_err {v : Nat} {chk : Bool} {b : BResult} {r : List Nat}
    (h : consEntry v chk b = .err r) :
    ∃ r0, b = .err r0 ∧ r = v :: r0 := by
  cases b with
  | ok r0 t0 => simp [consEntry] at h
  | err r0 =>
    simp only [consEntry, BResult.err.injEq] at h
    exact ⟨r0, rfl, h.symm⟩
  | overrun => simp [consEntry] at h

/-- A successful bsAux run returns an output of the same length as the
accumulator it was given. -/
theorem bsAux_ok_length :
    ∀ (rins routs r : List Nat) (t : Bool),
      bsAux rins routs = .ok r t → r.length = routs.length := by
  intro rins
  induction rins with
  | nil =>
    intro routs r t h
    simp only [bsAux, BResult.ok.injEq] at h
    rw [h.1]
  | cons i ins ih =>
    intro routs r t h
    cases routs with
    | nil => simp [bsAux] at h
    | cons o outs =>
      simp only [bsAux] at h
      by_cases ho : o = 1
      · simp only [ho, if_pos rfl] at h
        obtain ⟨r0, t0, hb, hr, _⟩ := consEntry_ok h
        simp [hr, ih outs r0 t0 hb]
      · rw [if_neg ho] at h
        by_cases hbad : i ≠ 1 ∧ o ≠ i
        · rw [if_pos hbad] at h
          cases h
        · rw [if_neg hbad] at h
          obtain ⟨r0, t0, hb, hr, _⟩ := consEntry_ok h
          simp [hr, ih outs r0 t0 hb]

/-- A failing bsAux run leaves an output of the same length as the
accumulator it was given. -/
theorem bsAux_err_length :
    ∀ (rins routs r : List Nat),
      bsAux rins routs = .err r → r.length = routs.length := by
  intro rins
  induction rins with
  | nil =>
    intro routs r h
    simp [bsAux] at h
  | cons i ins ih =>
    intro routs r h
    cases routs with
    | nil => simp [bsAux] at h
    | cons o outs =>
      simp only [bsAux] at h
      by_cases ho : o = 1
      · simp only [ho, if_pos rfl] at h
        obtain ⟨r0, hb, hr⟩ := consEntry_err h
        simp [hr, ih outs r0 hb]
      · rw [if_neg ho] at h
        by_cases hbad : i ≠ 1 ∧ o ≠ i
        · rw [if_pos hbad] at h
          cases h
          rfl
        · rw [if_neg hbad] at h
          obtain ⟨r0, hb, hr⟩ := consEntry_err h
          simp [hr, ih outs r0 hb]

/-- Claim C9: when the input rank is at most the output rank, the output
accumulator keeps its number of dimensions, whether the call succeeds or
fails: broadcast_shape widens extents in place but never resizes. -/
theorem broadcast_shape_length_preserved (input output : List Nat)
    (h : input.length ≤ output.length) :
    (∀ r t, broadcast_shape input output = .ok r t → r.length = output.length) ∧
      ∀ r, broadcast_shape input output = .err r → r.length = output.length := by
  constructor
  · intro r t hok
    unfold broadcast_shape at hok
    cases hb : bsAux input.reverse output.reverse with
    | ok r0 t0 =>
      rw [hb] at hok
      simp only [BResult.ok.injEq] at hok
      have := bsAux_ok_length input.reverse output.reverse r0 t0 hb
      simp only [List.length_reverse] at this
      rw [← hok.1, List.length_reverse, this]
    | err r0 => rw [hb] at hok; cases hok
    | overrun => rw [hb] at hok; cases hok
  · intro r herr
    unfold broadcast_shape at herr
    cases hb : bsAux input.reverse output.reverse with
    | ok r0 t0 => rw [hb] at herr; cases herr
    | err r0 =>
      rw [hb] at herr
      simp only [BResult.err.injEq] at herr
      have := bsAux_err_length input.reverse output.reverse r0 hb
      simp only [List.length_reverse] at this
      rw [← herr, List.length_reverse, this]
    | overrun => rw [hb] at herr; cases herr

/-- Witness for claim C9: folding input [5] into output [1, 1] succeeds
with result [1, 5], whose length is that of the original output. -/
theorem broadcast_shape_length_preserved_witness :
    List.length [1, 5] = List.length [1, 1] :=
  (broadcast_shape_length_preserved [5] [1, 1] (by decide)).1 [1, 5] false (by decide)

/-- On a successful bsAux run the accumulated trivial flag is exactly the
conjunction, over the aligned pairs, of: the output dimension was 1 (and
was widened to the input dimension, making the post-assignment equality
check succeed) or already equal to the input dimension. -/
theorem bsAux_ok_trivial :
    ∀ (rins routs r : List Nat) (t : Bool),
      bsAux rins routs = .ok r t →
        t = (rins.zip routs).all fun p => p.2 == 1 || p.2 == p.1 := by
  intro rins
  induction rins with
  | nil =>
    intro routs r t h
    simp only [bsAux, BResult.ok.injEq] at h
    simp [← h.2]
  | cons i ins ih =>
    intro routs r t h
    cases routs with
    | nil => simp [bsAux] at h
    | cons o outs =>
      simp only [bsAux] at h
      by_cases ho : o = 1
      · simp only [ho, if_pos rfl] at h
        obtain ⟨r0, t0, hb, _, ht⟩ := consEntry_ok h
        simp [ht, ih outs r0 t0 hb, ho]
      · rw [if_neg ho] at h
        by_cases hbad : i ≠ 1 ∧ o ≠ i
        · rw [if_pos hbad] at h
          cases h
        · rw [if_neg hbad] at h
          obtain ⟨r0, t0, hb, _, ht⟩ := consEntry_ok h
          simp only [List.zip_cons_cons, List.all_cons, ht, ih outs r0 t0 hb]
          congr 1
          simp [ho]

/-- Claim C2 (amended): on every successful call, the returned trivial
flag is true iff input and output had equal rank on entry and every
right-aligned pair (in, out) satisfied out = 1 or out = in before the
call; the per-dimension equality is checked after a 1-extent output
dimension has been widened, so a widened dimension still counts as
trivial. -/
theorem broadcast_shape_trivial_eq (input output r : List Nat) (t : Bool)
    (h : broadcast_shape input output = .ok r t) :
    t = ((input.length == output.length) &&
      ((input.reverse.zip output.reverse).all fun p => p.2 == 1 || p.2 == p.1)) := by
  unfold broadcast_shape at h
  cases hb : bsAux input.reverse output.reverse with
  | ok r0 t0 =>
    rw [hb] at h
    simp only [BResult.ok.injEq] at h
    rw [← h.2, bsAux_ok_trivial input.reverse output.reverse r0 t0 hb]
  | err r0 => rw [hb] at h; cases h
  | overrun => rw [hb] at h; cases h

/-- Witness for the amended claim C2: broadcast_shape [5] [1] succeeds
with flag true, and the amended formula evaluates to true as well. -/
theorem broadcast_shape_trivial_eq_witness :
    true = ((List.length [5] == List.length [1]) &&
      ((List.reverse [5]).zip (List.reverse [1])).all fun p => p.2 == 1 || p.2 == p.1) :=
  broadcast_shape_trivial_eq [5] [1] [5] true (by decide)

/-- consEntry does not change whether the result is an error. -/
theorem consEntry_isErr (v : Nat) (chk : Bool) (b : BResult) :
    (consEntry v chk b).isErr = b.isErr := by
  cases b <;> rfl

/-- consEntry does not change whether the result is a success. -/
theorem consEntry_isOk (v : Nat) (chk : Bool) (b : BResult) :
    (consEntry v chk b).isOk = b.isOk := by
  cases b <;> rfl

/-- When the input does not outrank the accumulator, bsAux errs exactly
when some aligned pair has both dimensions different from 1 and from
each other, and otherwise succeeds (the overrun case cannot occur). -/
theorem bsAux_err_any :
    ∀ (rins routs : List Nat), rins.length ≤ routs.length →
      (bsAux rins routs).isErr =
          ((rins.zip routs).any fun p => !(p.2 == 1) && (!(p.1 == 1) && !(p.1 == p.2))) ∧
        (bsAux rins routs).isOk = !(bsAux rins routs).isErr := by
  intro rins
  induction rins with
  | nil =>
    intro routs _
    simp [bsAux, BResult.isErr, BResult.isOk]
  | cons i ins ih =>
    intro routs hlen
    cases routs with
    | nil => simp at hlen
    | cons o outs =>
      have hlen2 : ins.length ≤ outs.length := by
        simpa using hlen
      obtain ⟨ih1, ih2⟩ := ih outs hlen2
      simp only [bsAux]
      by_cases ho : o = 1
      · subst ho
        rw [if_pos rfl]
        simp only [consEntry_isErr, consEntry_isOk]
        constructor
        · rw [ih1]
          simp
        · exact ih2
      · rw [if_neg ho]
        by_cases hbad : i ≠ 1 ∧ o ≠ i
        · rw [if_pos hbad]
          constructor
          · have h1 : (o == 1) = false := by
              simpa using ho
            have h2 : (i == 1) = false := by
              simpa using hbad.1
            have h3 : (i == o) = false := by
              simpa using fun he => hbad.2 he.symm
            simp [BResult.isErr, h1, h2, h3]
          · rfl
        · rw [if_neg hbad]
          rw [Decidable.not_and_iff_or_not] at hbad
          simp only [ne_eq, Decidable.not_not] at hbad
          simp only [consEntry_isErr, consEntry_isOk]
          constructor
          · rw [ih1]
            rcases hbad with h1 | h2
            · simp [h1]
            · have : (i == o) = true := by
                simpa using h2.symm
              simp [this]
          · exact ih2

/-- broadcast_shape errs exactly when its loop does. -/
theorem broadcast_shape_isErr_eq (input output : List Nat) :
    (broadcast_shape input output).isErr = (bsAux input.reverse output.reverse).isErr := by
  unfold broadcast_shape
  cases bsAux input.reverse output.reverse <;> rfl

/-- broadcast_shape succeeds exactly when its loop does. -/
theorem broadcast_shape_isOk_eq (input output : List Nat) :
    (broadcast_shape input output).isOk = (bsAux input.reverse output.reverse).isOk := by
  unfold broadcast_shape
  cases bsAux input.reverse output.reverse <;> rfl

/-- Claim C1 (amended): for every call in which the input rank is at
most the output rank, the call fails with the incompatible-shape error
iff some right-aligned dimension pair (in, out) has out different from
1, in different from 1 and in different from out, and in every other
such case the call succeeds. (When the input outranks the output the
loop reads past the end of the accumulator instead.) -/
theorem broadcast_shape_err_iff (input output : List Nat)
    (h : input.length ≤ output.length) :
    ((broadcast_shape input output).isErr = true ↔
        ∃ p ∈ input.reverse.zip output.reverse, p.2 ≠ 1 ∧ p.1 ≠ 1 ∧ p.1 ≠ p.2) ∧
      ((broadcast_shape input output).isOk = true ↔
        ¬ ∃ p ∈ input.reverse.zip output.reverse, p.2 ≠ 1 ∧ p.1 ≠ 1 ∧ p.1 ≠ p.2) := by
  have hlen : input.reverse.length ≤ output.reverse.length := by
    simpa using h
  obtain ⟨h1, h2⟩ := bsAux_err_any input.reverse output.reverse hlen
  rw [broadcast_shape_isErr_eq, broadcast_shape_isOk_eq, h1, h2, h1]
  constructor
  · rw [List.any_eq_true]
    constructor
    · rintro ⟨p, hp, hcond⟩
      refine ⟨p, hp, ?_⟩
      simpa using hcond
    · rintro ⟨p, hp, hcond⟩
      refine ⟨p, hp, ?_⟩
      simpa using hcond
  · rw [Bool.not_eq_true', ← Bool.not_eq_true, List.any_eq_true]
    constructor
    · rintro hno ⟨p, hp, hcond⟩
      exact hno ⟨p, hp, by simpa using hcond⟩
    · rintro hno ⟨p, hp, hcond⟩
      exact hno ⟨p, hp, by simpa using hcond⟩

/-- Witness for the amended claim C1: input [4] against output [2, 3]
has the offending trailing pair (4, 3), and the call does fail. -/
theorem broadcast_shape_err_iff_witness :
    (broadcast_shape [4] [2, 3]).isErr = true :=
  ((broadcast_shape_err_iff [4] [2, 3] (by decide)).1).mpr (by decide)

/-- With default 1, getD of an all-positive list is at least 1. -/
theorem one_le_getD (l : List Nat) (hp : ∀ e ∈ l, 0 < e) (i : Nat) :
    1 ≤ l.getD i 1 := by
  by_cases h : i < l.length
  · rw [List.getD_eq_getElem l 1 h]
    exact hp _ (List.getElem_mem h)
  · rw [List.getD_eq_default l 1 (Nat.le_of_not_lt h)]

/-- When the input does not outrank the accumulator, both shapes have
only positive extents and every aligned pair is compatible, the loop
succeeds and produces, position by position, the maximum of the two
aligned extents (missing positions count as extent 1). -/
theorem bsAux_ok_max :
    ∀ (rins routs : List Nat), rins.length ≤ routs.length →
      (∀ e ∈ rins, 0 < e) → (∀ e ∈ routs, 0 < e) →
      (∀ p ∈ rins.zip routs, p.1 = 1 ∨ p.2 = 1 ∨ p.1 = p.2) →
      ∃ r t, bsAux rins routs = .ok r t ∧ r.length = routs.length ∧
        ∀ i, r.getD i 1 = max (routs.getD i 1) (rins.getD i 1) := by
  intro rins
  induction rins with
  | nil =>
    intro routs _ _ hro _
    refine ⟨routs, true, rfl, rfl, ?_⟩
    intro i
    rw [List.getD_nil, Nat.max_eq_left (one_le_getD routs hro i)]
  | cons i ins ih =>
    intro routs hlen hri hro hc
    cases routs with
    | nil => simp at hlen
    | cons o outs =>
      have hlen2 : ins.length ≤ outs.length := by
        simpa using hlen
      have hri2 : ∀ e ∈ ins, 0 < e := fun e he => hri e (List.mem_cons_of_mem _ he)
      have hro2 : ∀ e ∈ outs, 0 < e := fun e he => hro e (List.mem_cons_of_mem _ he)
      have hc2 : ∀ p ∈ ins.zip outs, p.1 = 1 ∨ p.2 = 1 ∨ p.1 = p.2 := by
        intro p hp
        exact hc p (by simp [hp])
      have hc0 : i = 1 ∨ o = 1 ∨ i = o := hc (i, o) (by simp)
      have hipos : 0 < i := hri i (List.mem_cons_self i ins)
      have hopos : 0 < o := hro o (List.mem_cons_self o outs)
      obtain ⟨r0, t0, hb, hl, hmax⟩ := ih outs hlen2 hri2 hro2 hc2
      by_cases ho : o = 1
      · subst ho
        refine ⟨i :: r0, true && t0, ?_, by simp [hl], ?_⟩
        · simp [bsAux, hb, consEntry]
        · intro n
          cases n with
          | zero =>
            simp only [List.getD_cons_zero]
            exact (Nat.max_eq_right hipos).symm
          | succ n =>
            simp only [List.getD_cons_succ]
            exact hmax n
      · have hio : i = 1 ∨ i = o := by
          rcases hc0 with h1 | h2 | h3
          · exact Or.inl h1
          · exact absurd h2 ho
          · exact Or.inr h3
        have hbad : ¬ (i ≠ 1 ∧ o ≠ i) := by
          rcases hio with h1 | h2
          · intro hx
            exact hx.1 h1
          · intro hx
            exact hx.2 h2.symm
        refine ⟨o :: r0, (o == i) && t0, ?_, by simp [hl], ?_⟩
        · simp only [bsAux, if_neg ho, if_neg hbad, hb, consEntry]
        · intro n
          cases n with
          | zero =>
            simp only [List.getD_cons_zero]
            rcases hio with h1 | h2
            · subst h1
              exact (Nat.max_eq_left hopos).symm
            · subst h2
              simp
          | succ n =>
            simp only [List.getD_cons_succ]
            exact hmax n

/-- Claim C4 (amended): for broadcast-compatible shapes A and B with all
extents positive and rank(B) at most rank(A), folding B into an
accumulator starting at A succeeds and yields rank max(rank A, rank B)
(= rank A) with every trailing dimension the maximum of the operands'
aligned trailing dimensions (extent-1 dimensions yield to the other
operand). When rank(B) exceeds rank(A) the fold instead reads past the
end of the accumulator, which never grows. -/
theorem broadcast_fold_max (A B : List Nat) (hr : B.length ≤ A.length)
    (hA : ∀ e ∈ A, 0 < e) (hB : ∀ e ∈ B, 0 < e)
    (hc : ∀ p ∈ B.reverse.zip A.reverse, p.1 = 1 ∨ p.2 = 1 ∨ p.1 = p.2) :
    (broadcast_shape B A).isOk = true ∧
      (broadcast_shape B A).outList.length = max A.length B.length ∧
      ∀ i, trailingDim ((broadcast_shape B A).outList) i =
        max (trailingDim A i) (trailingDim B i) := by
  have hlen : B.reverse.length ≤ A.reverse.length := by
    simpa using hr
  have hBr : ∀ e ∈ B.reverse, 0 < e := fun e he => hB e (List.mem_reverse.mp he)
  have hAr : ∀ e ∈ A.reverse, 0 < e := fun e he => hA e (List.mem_reverse.mp he)
  obtain ⟨r, t, hb, hl, hmax⟩ := bsAux_ok_max B.reverse A.reverse hlen hBr hAr hc
  have hbs : broadcast_shape B A =
      .ok r.reverse ((B.length == A.length) && t) := by
    unfold broadcast_shape
    rw [hb]
  rw [hbs]
  refine ⟨rfl, ?_, ?_⟩
  · simp only [BResult.outList, List.length_reverse]
    rw [hl, List.length_reverse, Nat.max_eq_left hr]
  · intro i
    simp only [BResult.outList, trailingDim, List.reverse_reverse]
    exact hmax i

/-- Witness for the amended claim C4 at A = [2, 3], B = [3]: the fold
succeeds and the outer trailing dimension of the result is
max(2, 1) = 2. -/
theorem broadcast_fold_max_witness :
    (broadcast_shape [3] [2, 3]).isOk = true ∧
      trailingDim ((broadcast_shape [3] [2, 3]).outList) 1 =
        max (trailingDim [2, 3] 1) (trailingDim [3] 1) :=
  ⟨(broadcast_fold_max [2, 3] [3] (by decide) (by decide) (by decide) (by decide)).1,
   (broadcast_fold_max [2, 3] [3] (by decide) (by decide) (by decide) (by decide)).2.2 1⟩

/-- getD after setting the same (in-range) position. -/
theorem getD_set_self (l : List Nat) (i v : Nat) (h : i < l.length) :
    (l.set i v).getD i 0 = v := by
  rw [List.getD_eq_getElem _ _ (by simpa using h)]
  exact List.getElem_set_self _

/-- getD after setting a different position. -/
theorem getD_set_ne (l : List Nat) (v : Nat) {i j : Nat} (h : i ≠ j) :
    (l.set i v).getD j 0 = l.getD j 0 := by
  by_cases hj : j < l.length
  · rw [List.getD_eq_getElem _ _ (by simpa using hj), List.getElem_set_ne h,
      List.getD_eq_getElem _ _ hj]
  · have hge : l.length ≤ j := Nat.le_of_not_lt hj
    rw [List.getD_eq_default _ _ (by simpa using hge), List.getD_eq_default _ _ hge]

/-- With default 0, getD of an all-positive list is positive in range. -/
theorem pos_getD (l : List Nat) (hp : ∀ e ∈ l, 0 < e) {i : Nat}
    (h : i < l.length) : 0 < l.getD i 0 := by
  rw [List.getD_eq_getElem _ _ h]
  exact hp _ (List.getElem_mem h)

/-- The ripple-carry loop preserves the current-index invariant: every
intermediate wrap writes 0 (legal because extents are positive) and the
final non-overflow write stays strictly below its extent. -/
theorem stepAux_inv :
    ∀ (j : Nat) (m : multi_iterator), (∀ e ∈ m.m_shape, 0 < e) → m.inv →
      j ≤ m.m_index.length → (stepAux m j).1.inv := by
  intro j
  induction j with
  | zero =>
    intro m _ hinv _
    simpa [stepAux] using hinv
  | succ j ih =>
    intro m hp hinv hj
    have hjlt : j < m.m_index.length := hj
    have hlen := hinv.1
    have hjs : j < m.m_shape.length := hlen ▸ hjlt
    by_cases hc : m.m_index.getD j 0 + 1 ≠ m.m_shape.getD j 0
    · simp only [stepAux, if_pos hc]
      constructor
      · simpa using hlen
      · intro d hd
        by_cases hdj : d = j
        · subst hdj
          have hset : (m.m_index.set d (m.m_index.getD d 0 + 1)).getD d 0 =
              m.m_index.getD d 0 + 1 := getD_set_self _ _ _ hjlt
          simp only [hset]
          have hlt := hinv.2 d hjs
          omega
        · have hset := getD_set_ne m.m_index (m.m_index.getD j 0 + 1)
            (fun he => hdj he.symm)
          simp only [hset]
          exact hinv.2 d hd
    · simp only [stepAux, if_neg hc]
      apply ih
      · exact hp
      · constructor
        · simpa using hlen
        · intro d hd
          by_cases hdj : d = j
          · subst hdj
            have hset : (m.m_index.set d 0).getD d 0 = 0 :=
              getD_set_self _ _ _ hjlt
            simp only [hset]
            exact pos_getD m.m_shape hp hd
          · have hset := getD_set_ne m.m_index 0 (fun he => hdj he.symm)
            simp only [hset]
            exact hinv.2 d hd
      · simpa using Nat.le_of_succ_le hj

/-- Claim C8: over a logical shape with all extents positive, the
current-index invariant (one entry per dimension, each strictly below
its extent) holds of the freshly constructed Multi-Cursor and is
preserved by every step() call, including the one whose carry propagates
past the outermost dimension (which wraps every entry back to 0). -/
theorem multi_iterator_index_inv (its : List broadcasting_iterator)
    (shape : List Nat) (hp : ∀ e ∈ shape, 0 < e) :
    (multi_iterator.construct its shape).inv ∧
      ∀ m : multi_iterator, (∀ e ∈ m.m_shape, 0 < e) → m.inv →
        ((m.step).1).inv := by
  constructor
  · constructor
    · simp [multi_iterator.construct]
    · intro d hd
      have hz : (List.replicate shape.length (0 : Nat)).getD d 0 = 0 := by
        rw [List.getD_eq_getElem _ _ (by simpa using hd)]
        simp
      simpa [multi_iterator.construct, hz] using pos_getD shape hp hd
  · intro m hpm hinv
    exact stepAux_inv m.m_index.length m hpm hinv (Nat.le_refl _)

/-- Witness for claim C8: with one dimension of extent 2, the initial
index entry 0 is strictly below the extent. -/
theorem multi_iterator_index_inv_witness :
    (multi_iterator.construct [] [2]).m_index.getD 0 0 <
      (multi_iterator.construct [] [2]).m_shape.getD 0 0 :=
  ((multi_iterator_index_inv [] [2] (by decide)).1).2 0 (by decide)
